import Mathlib

set_option maxHeartbeats 1000000

/-!
Verification of the Web3ApiClient resolution-and-invocation engine
(packages/js/client/src/Web3ApiClient.ts) over a shallow embedding.

JS strings are embedded as lists of characters (`S`).  Asynchronous,
exception-throwing JS code is embedded as explicit state passing with
`Except` for thrown values.  The collaborators imported from core-js
(Uri parsing, resolveUri, sanitizeUriRedirects, getDefaultRedirects)
are not part of this repository slice and are modelled from the spec,
as marked in their doc comments.
-/

abbrev S : Type := List Char

/-- JS values passed to and returned from invocations; opaque to the engine. -/
inductive Value where
  | vnull : Value
  | vnum : Int → Value
  | vstr : S → Value
deriving DecidableEq

/-- The error taxonomy of the spec (section 7) together with the generic
error thrown by loadWeb3Api when resolution yields no implementation. -/
inductive WError where
  | invalidUri : S → WError
  | cyclicRedirect : S → WError
  | redirectCycle : S → WError
  | unresolvedUri : S → WError
  | methodNotFound : S → WError
  | pluginError : S → WError
  | moduleTrap : S → WError
deriving DecidableEq

/-- The characters of the w3 scheme marker of a normalized uri. -/
def w3Scheme : S := ['w', '3', ':', '/', '/']

/-- A validated, normalized identifier with authority and path; `uri` is the
normalized raw form used as the cache key (spec section 3). -/
structure Uri where
  authority : S
  path : S
  uri : S
deriving DecidableEq

/-- Split a character list at its first slash. -/
def splitAuthority : S → Option (S × S)
  | [] => none
  | c :: rest =>
    if c = '/' then some ([], rest)
    else
      match splitAuthority rest with
      | none => none
      | some (a, p) => some (c :: a, p)

/-- Modelled from the spec: the normalizing Uri parse of core-js, which is
missing from this repository slice (spec sections 3 and 4.1).  It fails with
InvalidUriError on malformed input (no authority and path split, or an empty
authority or path) and normalizes by prefixing the w3 scheme. -/
def Uri.parse (raw : S) : Except WError Uri :=
  let s := if raw.take 5 = w3Scheme then raw.drop 5 else raw
  match splitAuthority s with
  | none => Except.error (WError.invalidUri raw)
  | some (a, p) =>
    if a = [] ∨ p = [] then Except.error (WError.invalidUri raw)
    else Except.ok { authority := a, path := p, uri := w3Scheme ++ s }

/-- Modelled from the spec (sections 4.4 and 6): a plugin package is a
capability object exposing named methods; a method that throws is embedded
as a function returning an error. -/
structure PluginPackage where
  methods : List (S × (Value → Except WError Value))

/-- Modelled from the spec (sections 3 and 4.5): the sandboxed-module
descriptor, with one entry point per method name. -/
structure Manifest where
  moduleUri : S
  entry : S → Option (Value → Except WError Value)

/-- The backend variant of a bound implementation (spec section 3). -/
inductive ApiKind where
  | plugin : PluginPackage → ApiKind
  | wasm : Manifest → Uri → ApiKind

/-- An implementation handle.  `instId` embeds JS object identity: each
factory instantiation yields a fresh id. -/
structure Api where
  instId : Nat
  uri : Uri
  kind : ApiKind

/-- The target of a sanitized redirect rule: another uri, or an
implementation factory (spec section 3). -/
inductive RedirectTo where
  | toUri : Uri → RedirectTo
  | plugin : PluginPackage → RedirectTo
  | wasmFactory : Manifest → RedirectTo

/-- A sanitized redirect rule. -/
structure UriRedirect where
  «from» : Uri
  «to» : RedirectTo

/-- The mutable per-client state: the api cache of line 33 and the counter
giving each instantiated implementation its identity. -/
structure ClientState where
  apiCache : List (S × Api)
  nextId : Nat

def cacheGet : List (S × Api) → S → Option Api
  | [], _ => none
  | (k, a) :: rest, u => if k = u then some a else cacheGet rest u

def cacheSet : List (S × Api) → S → Api → List (S × Api)
  | [], u, a => [(u, a)]
  | (k, b) :: rest, u, a =>
    if k = u then (k, a) :: rest else (k, b) :: cacheSet rest u a

/-- First redirect rule whose from pattern matches the given uri. -/
def findRedirect : List UriRedirect → Uri → Option UriRedirect
  | [], _ => none
  | r :: rest, u => if r.«from».uri = u.uri then some r else findRedirect rest u

/-- The terminal factory a walk can land on. -/
inductive FactoryHit where
  | plugin : PluginPackage → FactoryHit
  | wasm : Manifest → FactoryHit

/-- Modelled from the spec (section 4.2): the redirect walk of core-js
resolveUri, missing from this slice.  A visited set guards multi-hop cycles;
the first matching rule wins at each hop; a factory ends the walk; no match
means the uri is terminal and unresolved.  The fuel bounds the walk by the
table size, as the spec argues termination. -/
def walkRedirects (redirects : List UriRedirect) :
    Nat → List S → Uri → Except WError (Option (Uri × FactoryHit))
  | 0, _, cur => Except.error (WError.redirectCycle cur.uri)
  | fuel + 1, visited, cur =>
    match findRedirect redirects cur with
    | none => Except.ok none
    | some r =>
      match r.«to» with
      | RedirectTo.plugin pkg => Except.ok (some (cur, FactoryHit.plugin pkg))
      | RedirectTo.wasmFactory m => Except.ok (some (cur, FactoryHit.wasm m))
      | RedirectTo.toUri u =>
        if u.uri ∈ visited then Except.error (WError.redirectCycle u.uri)
        else walkRedirects redirects fuel (u.uri :: visited) u

/-- Modelled from the spec (section 4.2): resolveUri of core-js.  The walk is
pure; landing on a factory instantiates an implementation with a fresh
identity, matching the two factory callbacks passed at lines 200 to 202; a
wasm module receives the original input uri as its api resolver context. -/
def resolveUri (redirects : List UriRedirect) (st : ClientState) (input : Uri) :
    Except WError (Option Api) × ClientState :=
  match walkRedirects redirects (redirects.length + 1) [input.uri] input with
  | Except.error e => (Except.error e, st)
  | Except.ok none => (Except.ok none, st)
  | Except.ok (some (matched, FactoryHit.plugin pkg)) =>
    (Except.ok (some { instId := st.nextId, uri := matched, kind := ApiKind.plugin pkg }),
     { st with nextId := st.nextId + 1 })
  | Except.ok (some (matched, FactoryHit.wasm m)) =>
    (Except.ok (some { instId := st.nextId, uri := matched, kind := ApiKind.wasm m input }),
     { st with nextId := st.nextId + 1 })

/-- The synchronous cache probe of loadWeb3Api (line 190). -/
def loadCheck (st : ClientState) (uri : Uri) : Option Api :=
  cacheGet st.apiCache uri.uri

/-- The remainder of loadWeb3Api (lines 196 to 216): on a cache miss resolve
the uri, throw when resolution yields nothing, and insert into the cache
under the requested uri. -/
def loadFinish (redirects : List UriRedirect) (st : ClientState) (uri : Uri) :
    Option Api → Except WError Api × ClientState
  | some api => (Except.ok api, st)
  | none =>
    match resolveUri redirects st uri with
    | (Except.error e, st2) => (Except.error e, st2)
    | (Except.ok none, st2) => (Except.error (WError.unresolvedUri uri.uri), st2)
    | (Except.ok (some api), st2) =>
      (Except.ok api, { st2 with apiCache := cacheSet st2.apiCache uri.uri api })

/-- Web3ApiClient.loadWeb3Api (lines 189 to 217). -/
def loadWeb3Api (redirects : List UriRedirect) (st : ClientState) (uri : Uri) :
    Except WError Api × ClientState :=
  loadFinish redirects st uri (loadCheck st uri)

/-- Two loadWeb3Api calls for the same uri begun concurrently, as under
Promise.all: both synchronous cache probes run before either resolution
completes and inserts, then the two continuations run in microtask order. -/
def loadTwoConcurrent (redirects : List UriRedirect) (st : ClientState) (uri : Uri) :
    (Except WError Api × Except WError Api) × ClientState :=
  let chk1 := loadCheck st uri
  let chk2 := loadCheck st uri
  let r1 := loadFinish redirects st uri chk1
  let r2 := loadFinish redirects r1.2 uri chk2
  ((r1.1, r2.1), r2.2)

structure InvokeApiOptions where
  uri : S
  method : S
  input : Value

structure InvokeApiResult where
  data : Option Value
  error : Option WError
deriving DecidableEq

def pkgGet : List (S × (Value → Except WError Value)) → S →
    Option (Value → Except WError Value)
  | [], _ => none
  | (k, f) :: rest, m => if k = m then some f else pkgGet rest m

/-- Modelled from the spec (sections 4.4 and 4.5): Api.invoke of the two
backends.  A missing method and a throwing capability or module entry point
are captured into the result error rather than escaping. -/
def apiInvoke (api : Api) (method : S) (input : Value) :
    Except WError InvokeApiResult :=
  match api.kind with
  | ApiKind.plugin pkg =>
    match pkgGet pkg.methods method with
    | none => Except.ok { data := none, error := some (WError.methodNotFound method) }
    | some f =>
      match f input with
      | Except.ok v => Except.ok { data := some v, error := none }
      | Except.error e => Except.ok { data := none, error := some e }
  | ApiKind.wasm m _ =>
    match m.entry method with
    | none => Except.ok { data := none, error := some (WError.methodNotFound method) }
    | some f =>
      match f input with
      | Except.ok v => Except.ok { data := some v, error := none }
      | Except.error e => Except.ok { data := none, error := some e }

/-- The body of Web3ApiClient.invoke (lines 162 to 179): parse the uri, load
the api, dispatch.  Any failure propagates as a thrown error. -/
def invokeTry (redirects : List UriRedirect) (st : ClientState)
    (opts : InvokeApiOptions) : Except WError InvokeApiResult × ClientState :=
  match Uri.parse opts.uri with
  | Except.error e => (Except.error e, st)
  | Except.ok uri =>
    match loadWeb3Api redirects st uri with
    | (Except.error e, st2) => (Except.error e, st2)
    | (Except.ok api, st2) =>
      match apiInvoke api opts.method opts.input with
      | Except.error e => (Except.error e, st2)
      | Except.ok res => (Except.ok res, st2)

/-- Web3ApiClient.invoke (lines 159 to 187): the body wrapped in the catch
that turns any thrown failure into a result carrying the error. -/
def invoke (redirects : List UriRedirect) (st : ClientState)
    (opts : InvokeApiOptions) : InvokeApiResult × ClientState :=
  match invokeTry redirects st opts with
  | (Except.ok res, st2) => (res, st2)
  | (Except.error e, st2) => ({ data := none, error := some e }, st2)

/-- Decimal digit characters of a number, most significant digit first, with
structural fuel; embeds the JS number-to-string conversion performed by the
template literal at line 124.  The fuel `n + 1` always suffices since a
positive number has no more digits than its own value. -/
def natToCharsAux : Nat → Nat → S
  | 0, _ => []
  | _ + 1, 0 => []
  | fuel + 1, n + 1 =>
    natToCharsAux fuel ((n + 1) / 10) ++ [Nat.digitChar ((n + 1) % 10)]

def natToChars (n : Nat) : S :=
  if n = 0 then ['0'] else natToCharsAux (n + 1) n

/-- Lookup in the counts object of makeRepeatedUnique; a missing key reads
as zero, embedding `counts[name] || 0`. -/
def countsGet : List (S × Nat) → S → Nat
  | [], _ => 0
  | (k, c) :: rest, n => if k = n then c else countsGet rest n

def countsSet : List (S × Nat) → S → Nat → List (S × Nat)
  | [], n, c => [(n, c)]
  | (k, c0) :: rest, n, c =>
    if k = n then (k, c) :: rest else (k, c0) :: countsSet rest n c

/-- The name given to an occurrence of a field name, from its 1-based
occurrence count (line 124): the bare name for the first occurrence, the
name suffixed with an underscore and `count - 1` afterwards. -/
def uniqName (name : S) (count : Nat) : S :=
  if count > 1 then name ++ '_' :: natToChars (count - 1) else name

/-- makeRepeatedUnique (lines 119 to 128), with the reduce-and-push loop
written as structural recursion and the counts object as an association
list. -/
def makeRepeatedUniqueAux (counts : List (S × Nat)) : List S → List S
  | [] => []
  | name :: rest =>
    uniqName name (countsGet counts name + 1) ::
      makeRepeatedUniqueAux (countsSet counts name (countsGet counts name + 1)) rest

def makeRepeatedUnique (names : List S) : List S :=
  makeRepeatedUniqueAux [] names

/-- A JS value as it appears in a thrown position or in the errors list of a
query result: an Error object, or an array of such values. -/
inductive JsVal where
  | err : WError → JsVal
  | arr : List JsVal → JsVal

structure QueryApiResult where
  data : Option (List (S × Option Value))
  errors : Option (List JsVal)

/-- One JS object property assignment: an existing key keeps its insertion
position and gets the new value, a new key is appended. -/
def objSet : List (S × Option Value) → S → Option Value → List (S × Option Value)
  | [], n, v => [(n, v)]
  | (k, w) :: rest, n, v =>
    if k = n then (k, v) :: rest else (k, w) :: objSet rest n v

/-- The data-object build loop of query (lines 133 to 137). -/
def objAssignList (pairs : List (S × Option Value)) : List (S × Option Value) :=
  pairs.foldl (fun acc p => objSet acc p.1 p.2) []

/-- The aggregation step of query (lines 106 to 145): collect methods, data
and errors from the invocation results, rename repeated methods, build the
data object, and return errors only when some invocation carried one. -/
def queryAggregate (invocations : List (S × InvokeApiResult)) : QueryApiResult :=
  let methods := invocations.map Prod.fst
  let resultDatas := invocations.map fun i => i.2.data
  let errors := invocations.filterMap fun i => i.2.error
  let methods2 := makeRepeatedUnique methods
  let data := objAssignList (methods2.zip resultDatas)
  { data := some data
    errors := if errors.length = 0 then none else some (errors.map JsVal.err) }

/-- The catch of query (lines 149 to 153): a thrown value with a truthy
length property becomes the errors list itself, anything else is wrapped in
a singleton list. -/
def wrapThrown : JsVal → List JsVal
  | JsVal.arr (x :: xs) => x :: xs
  | t => [t]

/-- The invocation loop of query (lines 87 to 101), threaded in request
order: one interleaving of the parallel execution, which shares only the
cache state. -/
def runInvocations (redirects : List UriRedirect) (st : ClientState) :
    List InvokeApiOptions → List (S × InvokeApiResult) × ClientState
  | [] => ([], st)
  | d :: rest =>
    let r := invoke redirects st d
    let rs := runInvocations redirects r.2 rest
    ((d.method, r.1) :: rs.1, rs.2)

/-- Web3ApiClient.query (lines 61 to 157).  The query document compiler is an
external collaborator (spec section 6), so query takes its outcome: either
the invocation list or the thrown value; a throw before any invocation runs
is caught and returned in the errors field with no data. -/
def query (redirects : List UriRedirect) (st : ClientState)
    (parsed : Except JsVal (List InvokeApiOptions)) : QueryApiResult × ClientState :=
  match parsed with
  | Except.ok invs =>
    let r := runInvocations redirects st invs
    (queryAggregate r.1, r.2)
  | Except.error t => ({ data := none, errors := some (wrapThrown t) }, st)

/-- A user-supplied redirect before sanitization, with string-typed uris
(the ClientConfig of lines 24 to 26 has TUri = string). -/
inductive RedirectToS where
  | toUriS : S → RedirectToS
  | plugin : PluginPackage → RedirectToS
  | wasmFactory : Manifest → RedirectToS

structure UriRedirectS where
  «from» : S
  «to» : RedirectToS

structure ClientConfig where
  redirects : List UriRedirectS

/-- Modelled from the spec (section 4.1): sanitizeUriRedirects of core-js,
missing from this slice.  Both ends are parsed, duplicate from patterns are
dropped keeping the first occurrence, and an exact self redirect fails with
CyclicRedirectError. -/
def sanitizeGo (seen : List S) : List UriRedirectS → Except WError (List UriRedirect)
  | [] => Except.ok []
  | r :: rest =>
    match Uri.parse r.«from» with
    | Except.error e => Except.error e
    | Except.ok fromUri =>
      if fromUri.uri ∈ seen then sanitizeGo seen rest
      else
        match r.«to» with
        | RedirectToS.toUriS s =>
          match Uri.parse s with
          | Except.error e => Except.error e
          | Except.ok toUri =>
            if toUri.uri = fromUri.uri then
              Except.error (WError.cyclicRedirect fromUri.uri)
            else
              match sanitizeGo (fromUri.uri :: seen) rest with
              | Except.error e => Except.error e
              | Except.ok rs =>
                Except.ok ({ «from» := fromUri, «to» := RedirectTo.toUri toUri } :: rs)
        | RedirectToS.plugin pkg =>
          match sanitizeGo (fromUri.uri :: seen) rest with
          | Except.error e => Except.error e
          | Except.ok rs =>
            Except.ok ({ «from» := fromUri, «to» := RedirectTo.plugin pkg } :: rs)
        | RedirectToS.wasmFactory m =>
          match sanitizeGo (fromUri.uri :: seen) rest with
          | Except.error e => Except.error e
          | Except.ok rs =>
            Except.ok ({ «from» := fromUri, «to» := RedirectTo.wasmFactory m } :: rs)

def sanitizeUriRedirects (rs : List UriRedirectS) : Except WError (List UriRedirect) :=
  sanitizeGo [] rs

def mkUri (a p : S) : Uri :=
  { authority := a, path := p, uri := w3Scheme ++ a ++ '/' :: p }

/-- Modelled from the spec (section 6): the built-in default redirects of the
getDefaultRedirects module, missing from this slice, resolving the
well-known authority schemes ipfs, ens and ethereum to bundled plugin
implementations. -/
def getDefaultRedirects : List UriRedirect :=
  [ { «from» := mkUri ['i', 'p', 'f', 's'] ['a', 'p', 'i']
    , «to» := RedirectTo.plugin { methods := [] } }
  , { «from» := mkUri ['e', 'n', 's'] ['a', 'p', 'i']
    , «to» := RedirectTo.plugin { methods := [] } }
  , { «from» := mkUri ['e', 't', 'h', 'e', 'r', 'e', 'u', 'm'] ['a', 'p', 'i']
    , «to» := RedirectTo.plugin { methods := [] } } ]

/-- The immutable part of a constructed client. -/
structure Web3ApiClient where
  redirects : List UriRedirect

/-- The Web3ApiClient constructor (lines 38 to 55): sanitize the user
redirects, then push the defaults after them.  A sanitize failure is fatal
and surfaces to the caller. -/
def mkClient (config : ClientConfig) : Except WError Web3ApiClient :=
  match sanitizeUriRedirects config.redirects with
  | Except.error e => Except.error e
  | Except.ok rs => Except.ok { redirects := rs ++ getDefaultRedirects }

/-! Concrete fixtures used by witnesses and counterexamples. -/

def emptyState : ClientState := { apiCache := [], nextId := 0 }

def uriA : Uri := mkUri ['a'] ['p']
def uriB : Uri := mkUri ['b'] ['p']
def uriC : Uri := mkUri ['c'] ['p']

/-- A redirect chain a to b to c ending in a plugin factory. -/
def chainRedirects : List UriRedirect :=
  [ { «from» := uriA, «to» := RedirectTo.toUri uriB }
  , { «from» := uriB, «to» := RedirectTo.toUri uriC }
  , { «from» := uriC, «to» := RedirectTo.plugin { methods := [] } } ]

def chainLoad1 : Except WError Api × ClientState :=
  loadWeb3Api chainRedirects emptyState uriA
def chainLoad2 : Except WError Api × ClientState :=
  loadWeb3Api chainRedirects chainLoad1.2 uriB
def chainLoad3 : Except WError Api × ClientState :=
  loadWeb3Api chainRedirects chainLoad2.2 uriC

def soloUri : Uri := mkUri ['s'] ['p']

/-- A single redirect binding one uri to a plugin factory. -/
def soloRedirects : List UriRedirect :=
  [ { «from» := soloUri, «to» := RedirectTo.plugin { methods := [] } } ]

def fooN : S := ['f', 'o', 'o']
def fooN1 : S := ['f', 'o', 'o', '_', '1']
def barN : S := ['b', 'a', 'r']


/-! Arithmetic facts about the embedded decimal rendering. -/

theorem digitChar_ne_underscore (d : Nat) (hd : d < 10) :
    Nat.digitChar d ≠ '_' := by
  interval_cases d <;> decide

theorem natToCharsAux_no_underscore :
    ∀ (fuel n : Nat), '_' ∉ natToCharsAux fuel n := by
  intro fuel
  induction fuel with
  | zero => intro n; simp [natToCharsAux]
  | succ fuel ih =>
    intro n
    cases n with
    | zero => simp [natToCharsAux]
    | succ n =>
      simp only [natToCharsAux, List.mem_append, List.mem_singleton]
      intro h
      rcases h with h | h
      · exact ih _ h
      · exact digitChar_ne_underscore _ (Nat.mod_lt _ (by omega)) h.symm

theorem natToChars_no_underscore (n : Nat) : '_' ∉ natToChars n := by
  unfold natToChars
  by_cases h : n = 0
  · simp [h]
  · simp only [h, if_false]
    exact natToCharsAux_no_underscore _ _

def charToDigit (c : Char) : Nat := c.toNat - 48

def decodeDigits (l : S) : Nat :=
  l.foldl (fun a c => a * 10 + charToDigit c) 0

theorem decodeDigits_append_digit (xs : S) (c : Char) :
    decodeDigits (xs ++ [c]) = decodeDigits xs * 10 + charToDigit c := by
  simp [decodeDigits, List.foldl_append]

theorem charToDigit_digitChar (d : Nat) (hd : d < 10) :
    charToDigit (Nat.digitChar d) = d := by
  interval_cases d <;> decide

theorem decodeDigits_natToCharsAux :
    ∀ (fuel n : Nat), n ≤ fuel → decodeDigits (natToCharsAux fuel n) = n := by
  intro fuel
  induction fuel with
  | zero => intro n hn; interval_cases n; simp [natToCharsAux, decodeDigits]
  | succ fuel ih =>
    intro n hn
    cases n with
    | zero => simp [natToCharsAux, decodeDigits]
    | succ n =>
      have hdiv : (n + 1) / 10 ≤ fuel := by
        have := Nat.div_lt_self (Nat.succ_pos n) (by omega : 1 < 10)
        omega
      rw [natToCharsAux, decodeDigits_append_digit, ih _ hdiv,
        charToDigit_digitChar _ (Nat.mod_lt _ (by omega))]
      omega

theorem decodeDigits_natToChars (n : Nat) : decodeDigits (natToChars n) = n := by
  unfold natToChars
  by_cases h : n = 0
  · simp [h]; decide
  · simp only [h, if_false]
    exact decodeDigits_natToCharsAux _ _ (by omega)

theorem natToChars_inj {a b : Nat} (h : natToChars a = natToChars b) : a = b := by
  have ha := decodeDigits_natToChars a
  have hb := decodeDigits_natToChars b
  rw [h] at ha
  omega

/-! The renaming step of query produces distinct keys on underscore-free
names; first the structural facts it needs. -/

theorem append_sep_inj :
    ∀ (a : S) (b d e : S), '_' ∉ a → '_' ∉ b →
      a ++ '_' :: d = b ++ '_' :: e → a = b ∧ d = e := by
  intro a
  induction a with
  | nil =>
    intro b d e _ hb h
    cases b with
    | nil => simpa using h
    | cons y b2 =>
      simp only [List.nil_append, List.cons_append, List.cons.injEq] at h
      exact absurd (h.1 ▸ List.mem_cons_self y b2) (h.1 ▸ hb)
  | cons x a2 ih =>
    intro b d e ha hb h
    cases b with
    | nil =>
      simp only [List.cons_append, List.nil_append, List.cons.injEq] at h
      exact absurd (h.1 ▸ List.mem_cons_self x a2) (by simp [h.1] at ha ⊢)
    | cons y b2 =>
      simp only [List.cons_append, List.cons.injEq] at h
      have ha2 : '_' ∉ a2 := fun hm => ha (List.mem_cons_of_mem _ hm)
      have hb2 : '_' ∉ b2 := fun hm => hb (List.mem_cons_of_mem _ hm)
      obtain ⟨hab, hde⟩ := ih b2 d e ha2 hb2 h.2
      exact ⟨by rw [h.1, hab], hde⟩

theorem uniqName_inj (n m : S) (c c2 : Nat) (hn : '_' ∉ n) (hm : '_' ∉ m)
    (hc : 1 ≤ c) (hc2 : 1 ≤ c2) (h : uniqName n c = uniqName m c2) :
    n = m ∧ c = c2 := by
  unfold uniqName at h
  by_cases h1 : c > 1 <;> by_cases h2 : c2 > 1
  · simp only [h1, h2, if_true] at h
    obtain ⟨hnm, hd⟩ := append_sep_inj n m _ _ hn hm h
    have := natToChars_inj hd
    exact ⟨hnm, by omega⟩
  · simp only [h1, h2, if_true, if_false] at h
    exact absurd (h ▸ hm) (by simp)
  · simp only [h1, h2, if_true, if_false] at h
    exact absurd (h ▸ hn) (by simp)
  · simp only [h1, h2, if_false] at h
    exact ⟨h, by omega⟩

theorem countsGet_set_same (counts : List (S × Nat)) (n : S) (c : Nat) :
    countsGet (countsSet counts n c) n = c := by
  induction counts with
  | nil => simp [countsGet, countsSet]
  | cons p rest ih =>
    obtain ⟨k, c0⟩ := p
    by_cases h : k = n
    · simp [countsGet, countsSet, h]
    · simp [countsGet, countsSet, h, ih]

theorem countsGet_set_ne (counts : List (S × Nat)) (n m : S) (c : Nat)
    (h : n ≠ m) : countsGet (countsSet counts n c) m = countsGet counts m := by
  induction counts with
  | nil => simp [countsGet, countsSet, fun hh => h (hh : n = m)]
  | cons p rest ih =>
    obtain ⟨k, c0⟩ := p
    by_cases hk : k = n
    · subst hk
      simp [countsGet, countsSet, h]
    · by_cases hm : k = m
      · subst hm
        simp [countsGet, countsSet, hk]
      · simp [countsGet, countsSet, hk, hm, ih]

theorem mem_makeRepeatedUniqueAux :
    ∀ (names : List S) (counts : List (S × Nat)) (x : S),
      x ∈ makeRepeatedUniqueAux counts names →
      ∃ n c, n ∈ names ∧ countsGet counts n + 1 ≤ c ∧ x = uniqName n c := by
  intro names
  induction names with
  | nil => intro counts x hx; simp [makeRepeatedUniqueAux] at hx
  | cons name rest ih =>
    intro counts x hx
    rw [makeRepeatedUniqueAux] at hx
    rcases List.mem_cons.mp hx with h | h
    · exact ⟨name, countsGet counts name + 1, List.mem_cons_self _ _, le_refl _, h⟩
    · obtain ⟨n, c, hn, hc, hx⟩ := ih _ _ h
      refine ⟨n, c, List.mem_cons_of_mem _ hn, ?_, hx⟩
      by_cases hnm : name = n
      · subst hnm
        rw [countsGet_set_same] at hc
        omega
      · rw [countsGet_set_ne _ _ _ _ hnm] at hc
        exact hc

theorem makeRepeatedUniqueAux_nodup :
    ∀ (names : List S) (counts : List (S × Nat)),
      (∀ n ∈ names, '_' ∉ n) → (makeRepeatedUniqueAux counts names).Nodup := by
  intro names
  induction names with
  | nil => intro counts _; simp [makeRepeatedUniqueAux]
  | cons name rest ih =>
    intro counts h
    rw [makeRepeatedUniqueAux]
    refine List.nodup_cons.mpr ⟨?_, ih _ fun n hn => h n (List.mem_cons_of_mem _ hn)⟩
    intro hmem
    obtain ⟨m, c, hm, hc, heq⟩ := mem_makeRepeatedUniqueAux _ _ _ hmem
    have h1 : '_' ∉ name := h name (List.mem_cons_self _ _)
    have h2 : '_' ∉ m := h m (List.mem_cons_of_mem _ hm)
    obtain ⟨hnm, hcc⟩ :=
      uniqName_inj name m _ c h1 h2 (by omega) (by omega) heq
    subst hnm
    rw [countsGet_set_same] at hc
    omega

/-! Claim theorems. -/

def badOpts : InvokeApiOptions := { uri := [], method := [], input := Value.vnull }

/-- C1: Web3ApiClient.invoke returns an InvokeApiResult for every invocation
options value and never raises past its boundary: a failure thrown during
uri parsing, resolution or dispatch comes back in the result error field, a
successful body result comes back unchanged, and a plugin method that
throws is captured into the result error rather than propagating. -/
theorem invoke_captures_thrown_failures (redirects : List UriRedirect)
    (st : ClientState) (opts : InvokeApiOptions) :
    (∀ e st2, invokeTry redirects st opts = (Except.error e, st2) →
      invoke redirects st opts = ({ data := none, error := some e }, st2)) ∧
    (∀ res st2, invokeTry redirects st opts = (Except.ok res, st2) →
      invoke redirects st opts = (res, st2)) ∧
    (∀ (i : Nat) (u : Uri) (pkg : PluginPackage)
        (f : Value → Except WError Value) (e : WError),
      pkgGet pkg.methods opts.method = some f →
      f opts.input = Except.error e →
      apiInvoke { instId := i, uri := u, kind := ApiKind.plugin pkg }
          opts.method opts.input =
        Except.ok { data := none, error := some e }) := by
  refine ⟨?_, ?_, ?_⟩
  · intro e st2 h
    unfold invoke
    rw [h]
  · intro res st2 h
    unfold invoke
    rw [h]
  · intro i u pkg f e hf hfe
    simp [apiInvoke, hf, hfe]

/-- C1 witness: a malformed uri makes the invoke body throw InvalidUriError,
and invoke returns it inside the result. -/
theorem invoke_captures_thrown_failures_witness :
    invoke [] emptyState badOpts =
      ({ data := none, error := some (WError.invalidUri []) }, emptyState) :=
  (invoke_captures_thrown_failures [] emptyState badOpts).1 _ _ rfl

/-- C2 (code bug evaluation): for the redirect chain a to b to c ending in a
factory, loading a, then b, then c yields three distinct implementation
instances with ids 0, 1 and 2, and the factory is instantiated three times,
because loadWeb3Api caches only under the requested uri; the claim and the
TODO of lines 29 to 32 call for one shared instance. -/
theorem redirect_chain_three_instances :
    Except.map Api.instId chainLoad1.1 = Except.ok 0 ∧
    Except.map Api.instId chainLoad2.1 = Except.ok 1 ∧
    Except.map Api.instId chainLoad3.1 = Except.ok 2 ∧
    chainLoad3.2.nextId = 3 :=
  ⟨rfl, rfl, rfl, rfl⟩

/-- C3 counterexample: two concurrent loadWeb3Api calls for one uncached uri
instantiate the factory twice, not once, and hand their callers two
distinct instances. -/
theorem concurrent_load_duplicates_instantiation :
    (loadTwoConcurrent soloRedirects emptyState soloUri).2.nextId = 2 ∧
    (loadTwoConcurrent soloRedirects emptyState soloUri).2.nextId ≠ 1 ∧
    Except.map Api.instId (loadTwoConcurrent soloRedirects emptyState soloUri).1.1 =
      Except.ok 0 ∧
    Except.map Api.instId (loadTwoConcurrent soloRedirects emptyState soloUri).1.2 =
      Except.ok 1 :=
  ⟨rfl, by decide, rfl, rfl⟩

/-- C3 amended: loadWeb3Api has no in-flight guard, so two concurrent calls
for the same uncached uri that both probe the cache before either
resolution completes each perform their own resolution: the instantiation
counter rises by exactly two and the callers receive two instances with
distinct fresh identities. -/
theorem concurrent_load_counts (redirects : List UriRedirect) (st : ClientState)
    (uri : Uri) (matched : Uri) (hit : FactoryHit)
    (hmiss : loadCheck st uri = none)
    (hwalk : walkRedirects redirects (redirects.length + 1) [uri.uri] uri =
      Except.ok (some (matched, hit))) :
    (loadTwoConcurrent redirects st uri).2.nextId = st.nextId + 2 ∧
    Except.map Api.instId (loadTwoConcurrent redirects st uri).1.1 =
      Except.ok st.nextId ∧
    Except.map Api.instId (loadTwoConcurrent redirects st uri).1.2 =
      Except.ok (st.nextId + 1) := by
  cases hit with
  | plugin pkg =>
    simp only [loadTwoConcurrent, hmiss, loadFinish, resolveUri, hwalk]
    simp [Except.map]
  | wasm m =>
    simp only [loadTwoConcurrent, hmiss, loadFinish, resolveUri, hwalk]
    simp [Except.map]

/-- C3 amended witness at the single-redirect fixture. -/
theorem concurrent_load_counts_witness :
    (loadTwoConcurrent soloRedirects emptyState soloUri).2.nextId =
      emptyState.nextId + 2 ∧
    Except.map Api.instId (loadTwoConcurrent soloRedirects emptyState soloUri).1.1 =
      Except.ok emptyState.nextId ∧
    Except.map Api.instId (loadTwoConcurrent soloRedirects emptyState soloUri).1.2 =
      Except.ok (emptyState.nextId + 1) :=
  concurrent_load_counts soloRedirects emptyState soloUri soloUri
    (FactoryHit.plugin { methods := [] }) rfl rfl

/-- C4: a query whose fields are foo, foo, bar, all succeeding, produces a
data mapping whose keys are exactly foo, foo_1, bar, in that order. -/
theorem query_repeated_field_keys (v1 v2 v3 : Value) :
    Option.map (List.map Prod.fst)
      (queryAggregate
        [(fooN, { data := some v1, error := none }),
         (fooN, { data := some v2, error := none }),
         (barN, { data := some v3, error := none })]).data =
      some [fooN, fooN1, barN] := by
  simp [queryAggregate, makeRepeatedUnique, makeRepeatedUniqueAux, countsGet,
    countsSet, uniqName, objAssignList, objSet, natToChars, natToCharsAux,
    Nat.digitChar, fooN, fooN1, barN]

/-- C5 counterexample: with the field names foo, foo_1, foo the renaming
step maps the third field to foo_1 as well, so the produced keys are not
pairwise distinct and the second field's data is overwritten. -/
theorem makeRepeatedUnique_collision :
    makeRepeatedUnique [fooN, fooN1, fooN] = [fooN, fooN1, fooN1] ∧
    ¬ (makeRepeatedUnique [fooN, fooN1, fooN]).Nodup :=
  ⟨rfl, by decide⟩

/-- C5 amended: for every sequence of field names in which no name contains
an underscore, the key-renaming step produces pairwise-distinct
result-mapping keys. -/
theorem makeRepeatedUnique_nodup_of_no_underscore (names : List S)
    (h : ∀ n ∈ names, '_' ∉ n) : (makeRepeatedUnique names).Nodup :=
  makeRepeatedUniqueAux_nodup names [] h

/-- C5 amended witness on a repeated underscore-free name list. -/
theorem makeRepeatedUnique_nodup_witness :
    (∀ n ∈ [['a'], ['b'], ['a'], ['a']], '_' ∉ n) ∧
    (makeRepeatedUnique [['a'], ['b'], ['a'], ['a']]).Nodup :=
  ⟨by decide, makeRepeatedUnique_nodup_of_no_underscore _ (by decide)⟩

/-- C6: a three-field query in which exactly the middle field fails returns
data carrying the two successful values with the failed field mapped to
absent, and an errors list with exactly one entry; the query still returns
a normal result. -/
theorem query_partial_failure (a b c : S) (v1 v3 : Value) (e : WError)
    (hab : a ≠ b) (hac : a ≠ c) (hbc : b ≠ c) :
    queryAggregate
        [(a, { data := some v1, error := none }),
         (b, { data := none, error := some e }),
         (c, { data := some v3, error := none })] =
      { data := some [(a, some v1), (b, none), (c, some v3)],
        errors := some [JsVal.err e] } := by
  simp [queryAggregate, makeRepeatedUnique, makeRepeatedUniqueAux, countsGet,
    countsSet, uniqName, objAssignList, objSet, hab, hac, hbc]

/-- C6 witness at concrete names and values. -/
theorem query_partial_failure_witness :
    queryAggregate
        [(['a'], { data := some Value.vnull, error := none }),
         (['b'], { data := none, error := some (WError.pluginError ['x']) }),
         (['c'], { data := some Value.vnull, error := none })] =
      { data := some
          [(['a'], some Value.vnull), (['b'], none), (['c'], some Value.vnull)],
        errors := some [JsVal.err (WError.pluginError ['x'])] } :=
  query_partial_failure _ _ _ _ _ _ (by decide) (by decide) (by decide)

/-- C7: invoking a uri that parses but that no redirect rule matches does
not raise: the unresolved-uri failure thrown inside loadWeb3Api is captured
and returned in the result error field, with data absent. -/
theorem invoke_unresolved_uri_error (redirects : List UriRedirect)
    (st : ClientState) (opts : InvokeApiOptions) (uri : Uri)
    (hparse : Uri.parse opts.uri = Except.ok uri)
    (hmiss : cacheGet st.apiCache uri.uri = none)
    (hnone : findRedirect redirects uri = none) :
    invoke redirects st opts =
      ({ data := none, error := some (WError.unresolvedUri uri.uri) }, st) := by
  simp only [invoke, invokeTry, hparse, loadWeb3Api, loadCheck, hmiss,
    loadFinish, resolveUri, walkRedirects, hnone]

def unresolvedOpts : InvokeApiOptions :=
  { uri := uriA.uri, method := [], input := Value.vnull }

/-- C7 witness: an empty redirect table leaves every uri unresolved. -/
theorem invoke_unresolved_uri_error_witness :
    invoke [] emptyState unresolvedOpts =
      ({ data := none, error := some (WError.unresolvedUri uriA.uri) },
        emptyState) :=
  invoke_unresolved_uri_error [] emptyState unresolvedOpts uriA rfl rfl rfl

theorem findRedirect_append_left (rs rs2 : List UriRedirect) (u : Uri)
    (r : UriRedirect) (h : findRedirect rs u = some r) :
    findRedirect (rs ++ rs2) u = some r := by
  induction rs with
  | nil => simp [findRedirect] at h
  | cons x rest ih =>
    by_cases hc : x.«from».uri = u.uri
    · rw [findRedirect, if_pos hc] at h
      rw [List.cons_append, findRedirect, if_pos hc]
      exact h
    · rw [findRedirect, if_neg hc] at h
      rw [List.cons_append, findRedirect, if_neg hc]
      exact ih h

/-- C8: a successfully constructed client's redirect list is the sanitized
user redirects followed by the built-in defaults, in that order, and any
uri matched by a user redirect keeps that match when the defaults are
appended for the front-to-back walk. -/
theorem client_redirects_user_then_defaults (config : ClientConfig)
    (rs : List UriRedirect)
    (h : sanitizeUriRedirects config.redirects = Except.ok rs) :
    (∃ c, mkClient config = Except.ok c ∧
      c.redirects = rs ++ getDefaultRedirects) ∧
    (∀ u r, findRedirect rs u = some r →
      findRedirect (rs ++ getDefaultRedirects) u = some r) := by
  constructor
  · refine ⟨{ redirects := rs ++ getDefaultRedirects }, ?_, rfl⟩
    unfold mkClient
    rw [h]
  · intro u r hf
    exact findRedirect_append_left _ _ _ _ hf

def userRedirectS : UriRedirectS :=
  { «from» := uriA.uri, «to» := RedirectToS.toUriS uriB.uri }

def cfg1 : ClientConfig := { redirects := [userRedirectS] }

def userRedirect : UriRedirect := { «from» := uriA, «to» := RedirectTo.toUri uriB }

/-- C8 witness on a one-redirect configuration. -/
theorem client_redirects_user_then_defaults_witness :
    (∃ c, mkClient cfg1 = Except.ok c ∧
      c.redirects = [userRedirect] ++ getDefaultRedirects) ∧
    (∀ u r, findRedirect [userRedirect] u = some r →
      findRedirect ([userRedirect] ++ getDefaultRedirects) u = some r) :=
  client_redirects_user_then_defaults cfg1 [userRedirect] rfl

/-- C9: when no invocation result of a query carries an error, the returned
errors field is absent, not an empty list. -/
theorem query_all_success_errors_undefined (invs : List (S × InvokeApiResult))
    (h : ∀ p ∈ invs, p.2.error = none) :
    (queryAggregate invs).errors = none := by
  have hnil : (invs.filterMap fun i => i.2.error) = [] :=
    List.filterMap_eq_nil_iff.mpr h
  simp [queryAggregate, hnil]

/-- C9 witness on a single successful invocation. -/
theorem query_all_success_errors_undefined_witness :
    (queryAggregate [(fooN, { data := some Value.vnull, error := none })]).errors
      = none :=
  query_all_success_errors_undefined _ (by decide)

/-- C10: a throw from query-document creation or parsing is caught by query:
the result has no data and carries the thrown value in its errors field,
as the list itself when the thrown value is an array with a truthy length
and wrapped in a singleton list otherwise. -/
theorem query_parse_throw_caught (redirects : List UriRedirect)
    (st : ClientState) :
    (∀ e : WError,
      query redirects st (Except.error (JsVal.err e)) =
        ({ data := none, errors := some [JsVal.err e] }, st)) ∧
    (∀ (x : JsVal) (xs : List JsVal),
      query redirects st (Except.error (JsVal.arr (x :: xs))) =
        ({ data := none, errors := some (x :: xs) }, st)) ∧
    (query redirects st (Except.error (JsVal.arr [])) =
      ({ data := none, errors := some [JsVal.arr []] }, st)) :=
  ⟨fun _ => rfl, fun _ _ => rfl, rfl⟩
